import Mathlib

/-!
Shallow embedding of the constraint-resolution and diagnostic-aggregation
engine of the `plap` repository, together with theorems checking its
natural-language specification.

The repository contains several near-duplicate snapshots of the engine.
The embedding below follows them separately where claims cite them:

* `Plap.Core`   — `src/core/src/{runtime,arg,group,error}.rs`
* `Plap.Shared` — `src/shared/src/{runtime,error,util}.rs`
* `Plap.Src`    — `src/src/checker.rs` (the `Checker` / `ValueState` variant)

Machine integers are modelled as `Nat` (no arithmetic overflows occur in the
modelled code paths: only collection lengths and indices are involved).
Source spans are modelled as opaque `Nat` locations.  Rust `panic!` and
non-termination are modelled with `Option`/`Except`: a recursive function
that may diverge on cyclic schemas takes explicit fuel and returns `none`
when the fuel runs out.
-/

set_option linter.unusedVariables false

namespace Plap

/-- Sequential, short-circuiting effectful map over `Option` (the behaviour
of a Rust iterator pipeline whose body may diverge or panic: elements are
visited in order and the first failure aborts). -/
def mapOptM {α β : Type} (f : α → Option β) : List α → Option (List β)
  | [] => some []
  | x :: xs => do
    let y ← f x
    let ys ← mapOptM f xs
    pure (y :: ys)

/-- Sequential, short-circuiting `Iterator::all` over `Option`: stops at the
first `false` (before touching later elements), like the Rust original. -/
def allOptM {α : Type} (f : α → Option Bool) : List α → Option Bool
  | [] => some true
  | x :: xs => do
    let b ← f x
    if b then allOptM f xs else pure false

namespace Core

/-- Cardinality action of an argument (`src/core/src/arg.rs`, `ArgAction`). -/
inductive ArgAction
  | set
  | append
deriving DecidableEq, Repr

/-- Model of `ArgState` from `src/core/src/arg.rs`: a defined argument entry.
Relation edges hold interned `Id`s (here plain `Nat` indices), `sources`
holds one span per recorded occurrence. -/
structure ArgState where
  name : String
  action : ArgAction
  required : Bool
  requires : List Nat
  conflicts : List Nat
  sources : List Nat
deriving DecidableEq, Repr

/-- Model of `GroupState` from `src/core/src/group.rs`: a defined group entry. -/
structure GroupState where
  name : String
  members : List Nat
  required : Bool
  multiple : Bool
  requires : List Nat
  conflicts : List Nat
deriving DecidableEq, Repr

/-- A defined entry (`State` in `src/core/src/runtime.rs`, minus the
`Undefined` constructor, which `RuntimeBuilder::finish` rules out). -/
inductive State
  | arg (a : ArgState)
  | grp (g : GroupState)
deriving DecidableEq, Repr

/-- Model of `Runtime` from `src/core/src/runtime.rs`: the anchor span `node` plus the
entries indexed by `Id`. -/
structure Runtime where
  node : Nat
  states : List State
deriving DecidableEq, Repr

/-- Builder slot: `State` in `src/core/src/runtime.rs` including
`State::Undefined` (a registered but not yet defined name). -/
inductive BState
  | undef (name : String)
  | defined (st : State)
deriving DecidableEq, Repr

/-- Model of `RuntimeBuilder::finish` (`src/core/src/runtime.rs`): panics (modelled as
`Except.error`) on the first still-undefined entry, otherwise produces the
immutable `Runtime`. -/
def builderFinish (node : Nat) (states : List BState) : Except String Runtime :=
  match states.findSome? (fun s => match s with | .undef n => some n | _ => none) with
  | some n => .error ("missing definition for `" ++ n ++ "`")
  | none => .ok ⟨node, states.filterMap (fun s => match s with | .undef _ => none | .defined st => some st)⟩

/-- Model of `check_supplied` (the inner function of `RuntimeChecker::supplied`,
`src/core/src/runtime.rs` lines 317-326): an argument is supplied iff it has
at least one recorded source; a group is supplied iff all of its members are
supplied, recursively.  The Rust recursion has no cycle protection, so the
embedding is fuel-indexed; `none` models non-termination (or an out-of-range
index, which panics in Rust). -/
def checkSupplied (rt : Runtime) : Nat → Nat → Option Bool
  | 0, _ => none
  | fuel + 1, i =>
    match rt.states[i]? with
    | some (.arg a) => some (!a.sources.isEmpty)
    | some (.grp g) => allOptM (checkSupplied rt fuel) g.members
    | none => none

/-- Model of `Runtime::visit_args` applied to the entry at index `i`
(`src/core/src/runtime.rs` lines 209-230): the flattened list of argument
states reachable through group membership, in visit order. -/
def visitArgsId (rt : Runtime) : Nat → Nat → Option (List ArgState)
  | 0, _ => none
  | fuel + 1, i =>
    match rt.states[i]? with
    | some (.arg a) => some [a]
    | some (.grp g) => (mapOptM (visitArgsId rt fuel) g.members).map List.flatten
    | none => none

/-- Model of `Runtime::visit_args` applied to a `State` value directly (the form used
for the entry currently being checked). -/
def visitArgsSt (rt : Runtime) (fuel : Nat) : State → Option (List ArgState)
  | .arg a => some [a]
  | .grp g => (mapOptM (visitArgsId rt fuel) g.members).map List.flatten

/-- Model of `RuntimeChecker::collect_args` (`src/core/src/runtime.rs`): the names of
the flattened arguments of entry `i`. -/
def collectNames (rt : Runtime) (fuel i : Nat) : Option (List String) :=
  (visitArgsId rt fuel i).map (·.map ArgState.name)

/-- Structured counterpart of the messages built in `src/core/src/error.rs`
(`Error`): the checker in `src/core/src/runtime.rs` renders these to strings
at emission time; rendering is modelled separately (see `fmtGrp`). -/
inductive ErrorKind
  | missingArgument (args : List String)
  | conflictingArgument (args : List String)
  | duplicateValue
deriving DecidableEq, Repr

/-- One emitted diagnostic: the span it is attached to plus its kind
(`syn::Error::new(node, msg)` in the Rust checker). -/
structure Err where
  span : Nat
  kind : ErrorKind
deriving DecidableEq, Repr

/-- Model of `RuntimeChecker::missing_argument`: one `MissingArgument` diagnostic per
given span, naming the flattened arguments of entry `i`. -/
def missingArgumentD (rt : Runtime) (fuel : Nat) (nodes : List Nat) (i : Nat) :
    Option (List Err) :=
  (collectNames rt fuel i).map fun ns => nodes.map fun sp => ⟨sp, .missingArgument ns⟩

/-- Model of `RuntimeChecker::conflicting_argument`: one `ConflictingArgument`
diagnostic per given span, naming the flattened arguments of entry `i`. -/
def conflictingArgumentD (rt : Runtime) (fuel : Nat) (nodes : List Nat) (i : Nat) :
    Option (List Err) :=
  (collectNames rt fuel i).map fun ns => nodes.map fun sp => ⟨sp, .conflictingArgument ns⟩

/-- The required-entry rule of `RuntimeChecker::check`: when the entry at `i`
is marked required and not supplied, one `MissingArgument` diagnostic at the
runtime's anchor `node`. -/
def requiredDiags (rt : Runtime) (fuel node i : Nat) (required : Bool) :
    Option (List Err) :=
  if required then do
    let s ← checkSupplied rt fuel i
    if s then pure [] else missingArgumentD rt fuel [node] i
  else pure []

/-- The cardinality rule of `RuntimeChecker::check` (lines 257-262): a `Set`
argument with more than one occurrence gets one `DuplicateValue` diagnostic
at every occurrence span. -/
def dupDiags (a : ArgState) : List Err :=
  if a.action = ArgAction.set ∧ a.sources.length > 1 then
    a.sources.map fun sp => ⟨sp, .duplicateValue⟩
  else []

/-- One ordered pair of the exclusive-group rule (`RuntimeChecker::check`
lines 272-288): when the other member `c` is supplied, emit a
`ConflictingArgument` naming `c` at every occurrence of every flattened
argument of member `m`. -/
def exclPair (rt : Runtime) (fuel m c : Nat) : Option (List Err) := do
  let s ← checkSupplied rt fuel c
  if !s then pure []
  else do
    let ns ← collectNames rt fuel c
    let args ← visitArgsId rt fuel m
    pure (args.flatMap fun a => a.sources.map fun sp => ⟨sp, ErrorKind.conflictingArgument ns⟩)

/-- The exclusive-group rule for one group: every member against every other
member, in source order. -/
def exclDiags (rt : Runtime) (fuel : Nat) (g : GroupState) : Option (List Err) :=
  if g.multiple then pure []
  else
    ((mapOptM (fun p =>
        ((mapOptM (exclPair rt fuel p.2)
            (g.members.take p.1 ++ g.members.drop (p.1 + 1))).map List.flatten))
      g.members.enum).map List.flatten)

/-- One `requires` edge of `RuntimeChecker::check` (lines 294-302): when the
target `t` is not supplied, one `MissingArgument` naming `t`'s flattened
arguments at every occurrence of every flattened argument of the current
entry `st`. -/
def requiresOne (rt : Runtime) (fuel : Nat) (st : State) (t : Nat) : Option (List Err) := do
  let s ← checkSupplied rt fuel t
  if s then pure []
  else do
    let ns ← collectNames rt fuel t
    let args ← visitArgsSt rt fuel st
    pure (args.flatMap fun a => a.sources.map fun sp => ⟨sp, ErrorKind.missingArgument ns⟩)

/-- All `requires` edges of the current entry, in declaration order. -/
def requiresDiags (rt : Runtime) (fuel : Nat) (st : State) (ts : List Nat) :
    Option (List Err) :=
  (mapOptM (requiresOne rt fuel st) ts).map List.flatten

/-- One `conflicts` edge of `RuntimeChecker::check` (lines 304-311): when the
target `t` is supplied, one `ConflictingArgument` naming `t`'s flattened
arguments at every occurrence of every flattened argument of `st`. -/
def conflictsOne (rt : Runtime) (fuel : Nat) (st : State) (t : Nat) : Option (List Err) := do
  let s ← checkSupplied rt fuel t
  if !s then pure []
  else do
    let ns ← collectNames rt fuel t
    let args ← visitArgsSt rt fuel st
    pure (args.flatMap fun a => a.sources.map fun sp => ⟨sp, ErrorKind.conflictingArgument ns⟩)

/-- All `conflicts` edges of the current entry, in declaration order. -/
def conflictsDiags (rt : Runtime) (fuel : Nat) (st : State) (ts : List Nat) :
    Option (List Err) :=
  (mapOptM (conflictsOne rt fuel st) ts).map List.flatten

/-- The body of the per-entry loop of `RuntimeChecker::check`: the
diagnostics emitted while checking the entry `st` at index `i`, in emission
order. -/
def checkEntry (rt : Runtime) (fuel node i : Nat) (st : State) : Option (List Err) :=
  match st with
  | .arg a => do
      let r ← requiredDiags rt fuel node i a.required
      let q ← requiresDiags rt fuel (.arg a) a.requires
      let c ← conflictsDiags rt fuel (.arg a) a.conflicts
      pure (r ++ dupDiags a ++ q ++ c)
  | .grp g => do
      let r ← requiredDiags rt fuel node i g.required
      let e ← exclDiags rt fuel g
      let q ← requiresDiags rt fuel (.grp g) g.requires
      let c ← conflictsDiags rt fuel (.grp g) g.conflicts
      pure (r ++ e ++ q ++ c)

/-- Model of `RuntimeChecker::check` (`src/core/src/runtime.rs` lines 245-315): all
diagnostics of one validation pass, iterating `states.iter().enumerate()` in
`Id` order. -/
def check (rt : Runtime) (fuel : Nat) : Option (List Err) :=
  (mapOptM (fun p => checkEntry rt fuel rt.node p.1 p.2) rt.states.enum).map List.flatten

/-- Model of `Runtime::finish` / `Runtime::check` result: `Ok` iff no diagnostic was
emitted, otherwise the combined `syn::Error` holding every diagnostic. -/
def finishCheck (rt : Runtime) (fuel : Nat) : Option (Except (List Err) Unit) :=
  (check rt fuel).map fun es => if es.isEmpty then .ok () else .error es

/-- Model of `FmtArg` from `src/core/src/error.rs`: one name in backticks, prefixed
with the namespace when one is configured. -/
def fmtArg (ns : Option String) (name : String) : String :=
  match ns with
  | some n => "`" ++ n ++ "." ++ name ++ "`"
  | none => "`" ++ name ++ "`"

/-- Model of `FmtGrp` from `src/core/src/error.rs` (lines 89-113): the default
rendering of a list of entry names, by length 0 / 1 / 2 / at least 3. -/
def fmtGrp (ns : Option String) (args : List String) : String :=
  match args with
  | [] => ""
  | [a] => fmtArg ns a
  | [a, b] => fmtArg ns a ++ " or " ++ fmtArg ns b
  | a :: rest =>
    "one of " ++ fmtArg ns a ++ String.join (rest.map fun r => ", " ++ fmtArg ns r)

end Core

namespace Shared

/-- Model of `syn::Error` as the `shared` snapshot uses it: a non-empty sequence of
`(span, message)` diagnostics; `combine` appends the second error's
diagnostics after the first's. -/
structure SynError where
  head : Nat × String
  rest : List (Nat × String)
deriving DecidableEq, Repr

/-- Model of `syn::Error::combine`. -/
def SynError.combine (e1 e2 : SynError) : SynError :=
  ⟨e1.head, e1.rest ++ e2.head :: e2.rest⟩

/-- All diagnostics of a combined `syn::Error`, in order. -/
def SynError.toList (e : SynError) : List (Nat × String) :=
  e.head :: e.rest

/-- Model of `ErrorCollector` from `src/shared/src/util.rs` (lines 4-20). -/
structure ErrorCollector where
  inner : Option SynError
deriving DecidableEq, Repr

/-- Model of `ErrorCollector::combine`: merge into the running error, or seed it. -/
def ErrorCollector.combine (c : ErrorCollector) (e : SynError) : ErrorCollector :=
  match c.inner with
  | some err => ⟨some (err.combine e)⟩
  | none => ⟨some e⟩

/-- Model of `ErrorCollector::take` followed by `map_or(Ok(()), Err)`, the tail of
`Runtime::finish` (`src/shared/src/runtime.rs` line 237). -/
def ErrorCollector.finish (c : ErrorCollector) : Except SynError Unit :=
  match c.inner with
  | none => .ok ()
  | some e => .error e

/-- Insert into a sorted association list, keeping keys ordered: the model of
`BTreeMap::insert` for a fresh key (iteration order is by key). -/
def insertSorted {α : Type} (k : Nat) (v : α) : List (Nat × α) → List (Nat × α)
  | [] => [(k, v)]
  | (k', v') :: rest =>
    if k < k' then (k, v) :: (k', v') :: rest else (k', v') :: insertSorted k v rest

/-- Model of `map.entry(k).or_default().push(v)` on a `BTreeMap<Id, Vec<Id>>`,
modelled on a key-sorted association list. -/
def entryPush : List (Nat × List Nat) → Nat → Nat → List (Nat × List Nat)
  | [], k, v => [(k, [v])]
  | (k', vs) :: rest, k, v =>
    if k = k' then (k', vs ++ [v]) :: rest
    else if k < k' then (k, [v]) :: (k', vs) :: rest
    else (k', vs) :: entryPush rest k v

/-- Model of `Runtime` from `src/shared/src/runtime.rs` (the fields exercised by the
registration and conflict logic).  `ids` keeps registration order (the Rust
`BTreeMap<Name, Id>` is only ever looked up, so order is irrelevant there);
the `Id`-keyed maps are key-sorted to mirror `BTreeMap` iteration. -/
structure Runtime where
  ids : List (String × Nat)
  names : List (Nat × String)
  groups : List (Nat × List Nat)
  sources : List (Nat × List Nat)
  conflicts : List (Nat × List Nat)
deriving DecidableEq, Repr

/-- The empty `Runtime` (`#[derive(Default)]`). -/
def Runtime.empty : Runtime :=
  ⟨[], [], [], [], []⟩

/-- Model of `Runtime::register` (`src/shared/src/runtime.rs` lines 38-50): return the
existing `Id` for a seen name, else allocate `Id(ids.len())`. -/
def register (rt : Runtime) (name : String) : Nat × Runtime :=
  let nextId := rt.ids.length
  match rt.ids.lookup name with
  | some id => (id, rt)
  | none =>
    (nextId,
      { rt with
        ids := rt.ids ++ [(name, nextId)]
        names := insertSorted nextId name rt.names })

/-- A sequence of `Runtime::register` calls, keeping only the evolving
runtime state. -/
def applyRegs (rt : Runtime) (ws : List String) : Runtime :=
  ws.foldl (fun r w => (register r w).2) rt

/-- Model of `Runtime::add_conflicts_with` (lines 60-64): register the named conflict
and record the edge in both endpoints' conflict lists. -/
def addConflictsWith (rt : Runtime) (this : Nat) (conflict : String) : Runtime :=
  let (c, rt) := register rt conflict
  { rt with conflicts := entryPush (entryPush rt.conflicts this c) c this }

/-- Model of `Runtime::add_source` (lines 85-87). -/
def addSource (rt : Runtime) (this span : Nat) : Runtime :=
  { rt with sources := entryPush rt.sources this span }

/-- Model of `to_name` in `Runtime::finish` (line 117).  The `expect("undefined Id")`
panic path is modelled by the empty string; every theorem below only looks
up `Id`s that were registered, where the two coincide. -/
def toName (rt : Runtime) (id : Nat) : String :=
  (rt.names.lookup id).getD ""

/-- Model of `supplied` in `Runtime::finish` (line 118): the `Id` has a sources entry. -/
def suppliedS (rt : Runtime) (id : Nat) : Bool :=
  (rt.sources.lookup id).isSome

/-- Model of `flat_group` in `Runtime::finish` (lines 120-129): a group flattens to
its members (no nested groups, as the source comments), an argument to
itself. -/
def flatGroup (rt : Runtime) (id : Nat) : List Nat :=
  match rt.groups.lookup id with
  | some members => members
  | none => [id]

/-- Model of `with_spans` in `Runtime::finish` (line 119). -/
def withSpans (rt : Runtime) (id : Nat) : Option (Nat × List Nat) :=
  (rt.sources.lookup id).map fun spans => (id, spans)

/-- The structured errors of `src/shared/src/error.rs` (`Error`). -/
inductive SErr
  | duplicateArg (this : String)
  | missingRequired (this : Option String) (required : List String)
  | argConflict (this conflict : String)
  | unexpectedArg (this : String)
  | unknownArg (this : String)
  | invalidInput
deriving DecidableEq, Repr

/-- One emitted diagnostic of the `shared` checker: span plus structured
error (the Rust code formats the error once and attaches the message to each
span; the structured form keeps the same information). -/
structure SDiag where
  span : Nat
  err : SErr
deriving DecidableEq, Repr

/-- The conflicts section of `Runtime::finish` (`src/shared/src/runtime.rs`
lines 209-221): for every conflict edge entry, every supplied flattened
member of the source side reports a conflict with every supplied flattened
member of the target side, once per occurrence span of the source side. -/
def conflictsSection (rt : Runtime) : List SDiag :=
  rt.conflicts.flatMap fun p =>
    ((flatGroup rt p.1).filterMap (withSpans rt)).flatMap fun q =>
      p.2.flatMap fun that =>
        ((flatGroup rt that).filter (suppliedS rt)).flatMap fun that' =>
          q.2.map fun sp => ⟨sp, .argConflict (toName rt q.1) (toName rt that')⟩

/-- Model of `FmtArg` from `src/shared/src/error.rs` (lines 147-156). -/
def fmtArgS (ns : Option String) (name : String) : String :=
  match ns with
  | some n => "`" ++ n ++ "." ++ name ++ "`"
  | none => "`" ++ name ++ "`"

/-- Model of `FmtArgs` from `src/shared/src/error.rs` (lines 158-181): note the match
is on the first two elements, so every list of two or more names takes the
second branch; the trailing branch is reachable only for the empty list. -/
def fmtArgsS (ns : Option String) (args : List String) : String :=
  match args.get? 0, args.get? 1 with
  | some n1, none => fmtArgS ns n1
  | some n1, some n2 => fmtArgS ns n1 ++ " or " ++ fmtArgS ns n2
  | _, _ =>
    match args with
    | [] => ""
    | a :: rest =>
      "one of " ++ fmtArgS ns a ++ String.join (rest.map fun r => ", " ++ fmtArgS ns r)

end Shared

namespace Src

/-- Model of `ValueState` from `src/src/parser.rs` (lines 75-81), in declaration
order (the order matters: `provided()` compares discriminants). -/
inductive ValueState
  | unresolved
  | busy
  | empty
  | provided
  | providedMany
deriving DecidableEq, Repr

/-- The `#[derive(PartialOrd)]` discriminant of `ValueState`. -/
def ValueState.toU8 : ValueState → Nat
  | .unresolved => 0
  | .busy => 1
  | .empty => 2
  | .provided => 3
  | .providedMany => 4

/-- Model of `ValueState::from_n` (`src/src/checker.rs` lines 351-357). -/
def ValueState.fromN (n : Nat) : ValueState :=
  match n with
  | 0 => .empty
  | 1 => .provided
  | _ => .providedMany

/-- Model of `ValueState::provided` (`src/src/checker.rs` lines 359-361). -/
def ValueState.isProvided (s : ValueState) : Bool :=
  decide (ValueState.provided.toU8 ≤ s.toU8)

/-- Model of `ValueKind` from `src/src/parser.rs`: an argument carries its recorded
keys (here just their count), a group its member indices. -/
inductive VKind
  | vnone
  | arg (nkeys : Nat)
  | grp (members : List Nat)
deriving DecidableEq, Repr

/-- One slot of `Parser::values`, with the schema id kept for panic
messages. -/
structure SValue where
  name : String
  kind : VKind
  state : ValueState
deriving DecidableEq, Repr

/-- Model of `Checker::update_state` (`src/src/checker.rs` lines 305-347): memoized
tri-state resolution.  Panics are modelled as `Except.error` carrying the
panic message; the fuel only bounds recursion depth (`.error "fuel
exhausted"` is never reached with fuel above the value count, because the
`busy` marker stops every cycle). -/
def updateState : Nat → List SValue → Nat → Nat → Except String (ValueState × List SValue)
  | 0, _, _, _ => .error "fuel exhausted"
  | fuel + 1, vals, prev, i =>
    match vals[i]? with
    | none => .error "index out of range"
    | some v =>
      match v.state with
      | .unresolved =>
        match v.kind with
        | .vnone => .error ("`" ++ v.name ++ "` is not added")
        | .arg nkeys =>
          let st := ValueState.fromN nkeys
          .ok (st, vals.set i { v with state := st })
        | .grp members => do
          let vals1 := vals.set i { v with state := .busy }
          let r ← members.foldlM
            (fun (acc : Nat × List SValue) m => do
              let (st, vs) ← updateState fuel acc.2 i m
              pure (if st.isProvided then acc.1 + 1 else acc.1, vs))
            (0, vals1)
          match r.2[i]? with
          | some v2 => .ok (ValueState.fromN r.1, r.2.set i { v2 with state := ValueState.fromN r.1 })
          | none => .error "index out of range"
      | .busy =>
        .error ("found circular groups: `" ++ v.name ++ "` and `"
          ++ ((vals[prev]?).map SValue.name).getD "" ++ "`")
      | st => .ok (st, vals)

end Src

/-! Auxiliary definitions and concrete schemas used by the theorems below. -/

namespace Core

/-- The `required` flag of an entry, read as `RuntimeChecker::check` does in
each branch. -/
def State.requiredF : State → Bool
  | .arg a => a.required
  | .grp g => g.required

/-- Whether a diagnostic is a `DuplicateValue`. -/
def Err.isDup : Err → Bool
  | ⟨_, .duplicateValue⟩ => true
  | _ => false

/-- The `DuplicateValue` diagnostics the cardinality rule owes to one entry:
groups and `Append` arguments owe none. -/
def dupOf : State → List Err
  | .arg a => dupDiags a
  | .grp _ => []

/-- Scenario C of the spec: one `Set` argument `verbose` recorded three
times (at spans 0, 1, 2). -/
def verboseRt : Runtime :=
  ⟨99, [.arg ⟨"verbose", .set, false, [], [], [0, 1, 2]⟩]⟩

/-- A required two-member group with exactly one member provided: `a`
recorded once (span 7), `b` not recorded. -/
def halfRt : Runtime :=
  ⟨99, [.arg ⟨"a", .append, false, [], [], [7]⟩,
        .arg ⟨"b", .append, false, [], [], []⟩,
        .grp ⟨"g", [0, 1], true, false, [], []⟩]⟩

/-- Scenario B of the spec: exclusive group `target = [file, url]`, both
members recorded once (spans 1 and 2). -/
def exclRt : Runtime :=
  ⟨99, [.arg ⟨"file", .append, false, [], [], [1]⟩,
        .arg ⟨"url", .append, false, [], [], [2]⟩,
        .grp ⟨"target", [0, 1], false, false, [], []⟩]⟩

/-- A `requires` scenario: `a` (recorded at spans 3 and 4) requires `b`
(not recorded). -/
def reqRt : Runtime :=
  ⟨99, [.arg ⟨"a", .append, false, [1], [], [3, 4]⟩,
        .arg ⟨"b", .append, false, [], [], []⟩]⟩

/-- A required group with zero registered members. -/
def emptyGrpRt : Runtime :=
  ⟨99, [.grp ⟨"g", [], true, false, [], []⟩]⟩

/-- Two groups that are circular members of each other. -/
def cycRt : Runtime :=
  ⟨0, [.grp ⟨"x", [1], false, false, [], []⟩,
       .grp ⟨"y", [0], false, false, [], []⟩]⟩

/-- The builder slots producing `cycRt`: both groups are defined, so
`RuntimeBuilder::finish` accepts the circular schema. -/
def cycBuild : List BState :=
  [.defined (.grp ⟨"x", [1], false, false, [], []⟩),
   .defined (.grp ⟨"y", [0], false, false, [], []⟩)]

end Core

namespace Shared

/-- Scenario A of the spec, as `shared` runtime state: `name` (`Id` 0,
recorded at span 10) and `alias` (`Id` 1, recorded at span 20), both
registered, no conflict edge yet. -/
def confBase : Runtime :=
  ⟨[("name", 0), ("alias", 1)], [(0, "name"), (1, "alias")], [],
   [(0, [10]), (1, [20])], []⟩

/-- A single-diagnostic `syn::Error`. -/
def cErr1 : SynError := ⟨(1, "first"), []⟩

/-- A `syn::Error` already carrying two diagnostics. -/
def cErr2 : SynError := ⟨(2, "second"), [(3, "third")]⟩

end Shared

namespace Src

/-- The circular schema of `cycRt` as `Parser::values` slots. -/
def cycVals : List SValue :=
  [⟨"x", .grp [1], .unresolved⟩, ⟨"y", .grp [0], .unresolved⟩]

end Src

/-! General lemmas about the sequential iteration combinators. -/

@[simp]
theorem mapOptM_nil {α β : Type} (f : α → Option β) : mapOptM f [] = some [] :=
  rfl

@[simp]
theorem mapOptM_cons {α β : Type} (f : α → Option β) (x : α) (xs : List α) :
    mapOptM f (x :: xs) =
      (f x).bind fun y => (mapOptM f xs).bind fun ys => some (y :: ys) :=
  rfl

@[simp]
theorem allOptM_nil {α : Type} (f : α → Option Bool) : allOptM f [] = some true :=
  rfl

@[simp]
theorem allOptM_cons {α : Type} (f : α → Option Bool) (x : α) (xs : List α) :
    allOptM f (x :: xs) = (f x).bind fun b => if b then allOptM f xs else some false :=
  rfl

theorem mapOptM_eq_map {α β : Type} {f : α → Option β} {g : α → β} :
    ∀ {xs : List α}, (∀ x ∈ xs, f x = some (g x)) → mapOptM f xs = some (xs.map g)
  | [], _ => rfl
  | x :: xs, h => by
    have hx := h x (List.mem_cons_self x xs)
    have ih : mapOptM f xs = some (xs.map g) :=
      mapOptM_eq_map (fun y hy => h y (List.mem_cons_of_mem x hy))
    simp [mapOptM_cons, hx, ih]

theorem mapOptM_flatten_mem {α β : Type} {f : α → Option (List β)} {xs : List α}
    {l : List (List β)} (hm : mapOptM f xs = some l) {x : α} {zs : List β} {z : β}
    (hx : x ∈ xs) (hf : f x = some zs) (hz : z ∈ zs) : z ∈ l.flatten := by
  induction xs generalizing l with
  | nil => cases hx
  | cons a as ih =>
    rw [mapOptM_cons] at hm
    obtain ⟨y, hy, hm⟩ := Option.bind_eq_some.1 hm
    obtain ⟨ys, hys, hmm⟩ := Option.bind_eq_some.1 hm
    cases Option.some.inj hmm
    rcases List.mem_cons.1 hx with rfl | hx'
    · rw [hf] at hy
      cases Option.some.inj hy
      simp only [List.flatten_cons, List.mem_append]
      exact Or.inl hz
    · simp only [List.flatten_cons, List.mem_append]
      exact Or.inr (ih hys hx')

theorem mapOptM_flatten_mem_src {α β : Type} {f : α → Option (List β)} {xs : List α}
    {l : List (List β)} (hm : mapOptM f xs = some l) {z : β}
    (hz : z ∈ l.flatten) : ∃ x ∈ xs, ∃ zs, f x = some zs ∧ z ∈ zs := by
  induction xs generalizing l with
  | nil => cases Option.some.inj hm; cases hz
  | cons a as ih =>
    rw [mapOptM_cons] at hm
    obtain ⟨y, hy, hm⟩ := Option.bind_eq_some.1 hm
    obtain ⟨ys, hys, hmm⟩ := Option.bind_eq_some.1 hm
    cases Option.some.inj hmm
    rcases List.mem_append.1 (by simpa only [List.flatten_cons] using hz) with hz' | hz'
    · exact ⟨a, List.mem_cons_self a as, y, hy, hz'⟩
    · obtain ⟨x, hxs, zs, hfz, hzz⟩ := ih hys hz'
      exact ⟨x, List.mem_cons_of_mem a hxs, zs, hfz, hzz⟩

theorem mapOptM_flatten_filter {α β : Type} {f : α → Option (List β)} {g : α → List β}
    {p : β → Bool} (hf : ∀ x ys, f x = some ys → ys.filter p = g x) :
    ∀ {xs : List α} {l : List (List β)}, mapOptM f xs = some l →
      l.flatten.filter p = (xs.map g).flatten := by
  intro xs
  induction xs with
  | nil => intro l hm; cases Option.some.inj hm; rfl
  | cons a as ih =>
    intro l hm
    rw [mapOptM_cons] at hm
    obtain ⟨y, hy, hm⟩ := Option.bind_eq_some.1 hm
    obtain ⟨ys, hys, hmm⟩ := Option.bind_eq_some.1 hm
    cases Option.some.inj hmm
    simp only [List.flatten_cons, List.filter_append, List.map_cons]
    rw [hf a y hy, ih hys]

namespace Core

/-! Diagnostic-kind lemmas for the components of `checkEntry`. -/

theorem isDup_missing (sp : Nat) (ns : List String) :
    Err.isDup ⟨sp, .missingArgument ns⟩ = false :=
  rfl

theorem isDup_conflicting (sp : Nat) (ns : List String) :
    Err.isDup ⟨sp, .conflictingArgument ns⟩ = false :=
  rfl

theorem requiredDiags_kinds {rt : Runtime} {fuel node i : Nat} {req : Bool}
    {r : List Err} (h : requiredDiags rt fuel node i req = some r) :
    ∀ e ∈ r, ∃ ns, e.kind = ErrorKind.missingArgument ns := by
  unfold requiredDiags at h
  by_cases hq : req = true
  · rw [if_pos hq] at h
    obtain ⟨b, hb, h⟩ := Option.bind_eq_some.1 h
    cases b
    · unfold missingArgumentD at h
      obtain ⟨ns, hns, h⟩ := Option.map_eq_some'.1 (by simpa using h)
      subst h
      intro e he
      simp only [List.map_cons, List.map_nil, List.mem_singleton] at he
      subst he
      exact ⟨ns, rfl⟩
    · cases Option.some.inj (by simpa using h)
      intro e he
      cases he
  · rw [if_neg hq] at h
    cases Option.some.inj (by simpa using h)
    intro e he
    cases he

theorem requiresOne_kinds {rt : Runtime} {fuel : Nat} {st : State} {t : Nat}
    {ys : List Err} (h : requiresOne rt fuel st t = some ys) :
    ∀ e ∈ ys, ∃ ns, e.kind = ErrorKind.missingArgument ns := by
  unfold requiresOne at h
  obtain ⟨b, hb, h⟩ := Option.bind_eq_some.1 h
  cases b
  · simp only [Bool.false_eq_true, if_false] at h
    obtain ⟨ns, hns, h⟩ := Option.bind_eq_some.1 h
    obtain ⟨args, hargs, h⟩ := Option.bind_eq_some.1 h
    cases Option.some.inj h
    intro e he
    obtain ⟨a, _, he⟩ := List.mem_flatMap.1 he
    obtain ⟨sp, _, he⟩ := List.mem_map.1 he
    subst he
    exact ⟨ns, rfl⟩
  · cases Option.some.inj (by simpa using h)
    intro e he
    cases he

theorem conflictsOne_kinds {rt : Runtime} {fuel : Nat} {st : State} {t : Nat}
    {ys : List Err} (h : conflictsOne rt fuel st t = some ys) :
    ∀ e ∈ ys, ∃ ns, e.kind = ErrorKind.conflictingArgument ns := by
  unfold conflictsOne at h
  obtain ⟨b, hb, h⟩ := Option.bind_eq_some.1 h
  cases b
  · cases Option.some.inj (by simpa using h)
    intro e he
    cases he
  · simp only [Bool.not_true, Bool.false_eq_true, if_false] at h
    obtain ⟨ns, hns, h⟩ := Option.bind_eq_some.1 h
    obtain ⟨args, hargs, h⟩ := Option.bind_eq_some.1 h
    cases Option.some.inj h
    intro e he
    obtain ⟨a, _, he⟩ := List.mem_flatMap.1 he
    obtain ⟨sp, _, he⟩ := List.mem_map.1 he
    subst he
    exact ⟨ns, rfl⟩

theorem exclPair_kinds {rt : Runtime} {fuel m c : Nat} {ys : List Err}
    (h : exclPair rt fuel m c = some ys) :
    ∀ e ∈ ys, ∃ ns, e.kind = ErrorKind.conflictingArgument ns := by
  unfold exclPair at h
  obtain ⟨b, hb, h⟩ := Option.bind_eq_some.1 h
  cases b
  · cases Option.some.inj (by simpa using h)
    intro e he
    cases he
  · simp only [Bool.not_true, Bool.false_eq_true, if_false] at h
    obtain ⟨ns, hns, h⟩ := Option.bind_eq_some.1 h
    obtain ⟨args, hargs, h⟩ := Option.bind_eq_some.1 h
    cases Option.some.inj h
    intro e he
    obtain ⟨a, _, he⟩ := List.mem_flatMap.1 he
    obtain ⟨sp, _, he⟩ := List.mem_map.1 he
    subst he
    exact ⟨ns, rfl⟩

theorem filter_isDup_nil_of_missing {l : List Err}
    (h : ∀ e ∈ l, ∃ ns, e.kind = ErrorKind.missingArgument ns) :
    l.filter Err.isDup = [] := by
  refine List.filter_eq_nil_iff.2 fun e he => ?_
  obtain ⟨ns, hk⟩ := h e he
  cases e with
  | mk sp k => simp only at hk; subst hk; simp [Err.isDup]

theorem filter_isDup_nil_of_conflicting {l : List Err}
    (h : ∀ e ∈ l, ∃ ns, e.kind = ErrorKind.conflictingArgument ns) :
    l.filter Err.isDup = [] := by
  refine List.filter_eq_nil_iff.2 fun e he => ?_
  obtain ⟨ns, hk⟩ := h e he
  cases e with
  | mk sp k => simp only at hk; subst hk; simp [Err.isDup]

theorem requiresDiags_filter_dup {rt : Runtime} {fuel : Nat} {st : State}
    {ts : List Nat} {q : List Err} (h : requiresDiags rt fuel st ts = some q) :
    q.filter Err.isDup = [] := by
  unfold requiresDiags at h
  obtain ⟨l, hl, rfl⟩ := Option.map_eq_some'.1 h
  refine filter_isDup_nil_of_missing fun e he => ?_
  obtain ⟨t, _, ys, hys, hey⟩ := mapOptM_flatten_mem_src hl he
  exact requiresOne_kinds hys e hey

theorem conflictsDiags_filter_dup {rt : Runtime} {fuel : Nat} {st : State}
    {ts : List Nat} {c : List Err} (h : conflictsDiags rt fuel st ts = some c) :
    c.filter Err.isDup = [] := by
  unfold conflictsDiags at h
  obtain ⟨l, hl, rfl⟩ := Option.map_eq_some'.1 h
  refine filter_isDup_nil_of_conflicting fun e he => ?_
  obtain ⟨t, _, ys, hys, hey⟩ := mapOptM_flatten_mem_src hl he
  exact conflictsOne_kinds hys e hey

theorem exclDiags_kinds {rt : Runtime} {fuel : Nat} {g : GroupState} {es : List Err}
    (h : exclDiags rt fuel g = some es) :
    ∀ e ∈ es, ∃ ns, e.kind = ErrorKind.conflictingArgument ns := by
  unfold exclDiags at h
  by_cases hm : g.multiple = true
  · rw [if_pos hm] at h
    cases Option.some.inj (by simpa using h)
    intro e he
    cases he
  · rw [if_neg hm] at h
    obtain ⟨l, hl, rfl⟩ := Option.map_eq_some'.1 h
    intro e he
    obtain ⟨p, _, ys, hys, hey⟩ := mapOptM_flatten_mem_src hl he
    obtain ⟨l2, hl2, rfl⟩ := Option.map_eq_some'.1 hys
    obtain ⟨cand, _, zs, hzs, hez⟩ := mapOptM_flatten_mem_src hl2 hey
    exact exclPair_kinds hzs e hez

theorem requiredDiags_filter_dup {rt : Runtime} {fuel node i : Nat} {req : Bool}
    {r : List Err} (h : requiredDiags rt fuel node i req = some r) :
    r.filter Err.isDup = [] :=
  filter_isDup_nil_of_missing (requiredDiags_kinds h)

theorem dupDiags_filter_self (a : ArgState) : (dupDiags a).filter Err.isDup = dupDiags a := by
  refine List.filter_eq_self.2 fun e he => ?_
  unfold dupDiags at he
  by_cases hc : a.action = ArgAction.set ∧ a.sources.length > 1
  · rw [if_pos hc] at he
    obtain ⟨sp, _, rfl⟩ := List.mem_map.1 he
    rfl
  · rw [if_neg hc] at he
    cases he

theorem checkEntry_filter_dup {rt : Runtime} {fuel node i : Nat} {st : State}
    {ds : List Err} (h : checkEntry rt fuel node i st = some ds) :
    ds.filter Err.isDup = dupOf st := by
  cases st with
  | arg a =>
    unfold checkEntry at h
    obtain ⟨r, hr, h⟩ := Option.bind_eq_some.1 h
    obtain ⟨q, hq, h⟩ := Option.bind_eq_some.1 h
    obtain ⟨c, hc, h⟩ := Option.bind_eq_some.1 h
    cases Option.some.inj h
    simp only [List.filter_append, requiredDiags_filter_dup hr, dupDiags_filter_self,
      requiresDiags_filter_dup hq, conflictsDiags_filter_dup hc, dupOf,
      List.nil_append, List.append_nil]
  | grp g =>
    unfold checkEntry at h
    obtain ⟨r, hr, h⟩ := Option.bind_eq_some.1 h
    obtain ⟨e, he, h⟩ := Option.bind_eq_some.1 h
    obtain ⟨q, hq, h⟩ := Option.bind_eq_some.1 h
    obtain ⟨c, hc, h⟩ := Option.bind_eq_some.1 h
    cases Option.some.inj h
    simp only [List.filter_append, requiredDiags_filter_dup hr,
      filter_isDup_nil_of_conflicting (exclDiags_kinds he),
      requiresDiags_filter_dup hq, conflictsDiags_filter_dup hc, dupOf,
      List.nil_append, List.append_nil]

theorem enum_map_snd_general {α β : Type} (l : List α) (g : α → β) :
    l.enum.map (fun p => g p.2) = l.map g := by
  rw [show (fun p : Nat × α => g p.2) = g ∘ Prod.snd from rfl, ← List.map_map,
    List.enum_map_snd]

/-- C1 (amended).  The cardinality rule of `RuntimeChecker::check` emits, for
a `Set` argument with N recorded occurrences, one `DuplicateValue` at every
occurrence when N ≥ 2 — i.e. exactly N diagnostics, including one at the
first occurrence — and none when N ≤ 1; and these are the only
`DuplicateValue` diagnostics of the whole pass.  (The frozen claim's count of
N−1 is refuted by `claim_c1_counterexample`.) -/
theorem claim_c1 {rt : Runtime} {fuel : Nat} {es : List Err}
    (h : check rt fuel = some es) :
    es.filter Err.isDup = (rt.states.map dupOf).flatten
    ∧ ∀ a : ArgState,
        (dupOf (.arg a)).length =
          if a.action = ArgAction.set ∧ 2 ≤ a.sources.length then a.sources.length else 0 := by
  constructor
  · unfold check at h
    obtain ⟨l, hl, rfl⟩ := Option.map_eq_some'.1 h
    rw [mapOptM_flatten_filter (fun p ys hys => checkEntry_filter_dup hys) hl,
      enum_map_snd_general]
  · intro a
    show (dupDiags a).length = _
    unfold dupDiags
    by_cases hc : a.action = ArgAction.set ∧ a.sources.length > 1
    · rw [if_pos hc, if_pos ⟨hc.1, hc.2⟩, List.length_map]
    · rw [if_neg hc, if_neg (fun hc2 => hc ⟨hc2.1, hc2.2⟩)]
      rfl

/-- C1 counterexample.  Scenario C of the spec: `verbose` is a `Set` argument
recorded three times in one pass; the checker emits three `DuplicateValue`
diagnostics (one per occurrence, the first included), not the claimed two. -/
theorem claim_c1_counterexample :
    (check verboseRt 1).map (List.countP Err.isDup) = some 3 ∧ (3 : Nat) ≠ 2 :=
  ⟨rfl, by decide⟩

/-- C1 witness: the amended theorem applied to scenario C. -/
theorem claim_c1_witness :
    ([(⟨0, .duplicateValue⟩ : Err), ⟨1, .duplicateValue⟩, ⟨2, .duplicateValue⟩].filter
        Err.isDup = (verboseRt.states.map dupOf).flatten)
    ∧ ∀ a : ArgState,
        (dupOf (.arg a)).length =
          if a.action = ArgAction.set ∧ 2 ≤ a.sources.length then a.sources.length else 0 :=
  @claim_c1 verboseRt 1 _ rfl

/-- C2 (amended).  For every entry marked required, the checker reports the
required-rule `MissingArgument` diagnostic (at the pass's anchor `node`,
naming the entry's flattened arguments) iff the entry is not *supplied*,
where an argument is supplied iff it has at least one recorded occurrence
and a group is supplied iff **all** of its members are recursively supplied
(`check_supplied`).  So a required group with one of two members provided is
still reported missing, unlike the frozen claim's zero-provided-members
reading (refuted by `claim_c2_counterexample`). -/
theorem claim_c2 {rt : Runtime} {fuel node i : Nat} {st : State} {b : Bool}
    {ns : List String}
    (hst : rt.states[i]? = some st)
    (hreq : st.requiredF = true)
    (hb : checkSupplied rt fuel i = some b)
    (hns : collectNames rt fuel i = some ns) :
    requiredDiags rt fuel node i st.requiredF =
      some (if b then [] else [⟨node, .missingArgument ns⟩])
    ∧ (∀ ds, checkEntry rt fuel node i st = some ds →
        ∃ rest, ds = (if b then [] else [⟨node, .missingArgument ns⟩]) ++ rest)
    ∧ (∀ a, st = State.arg a → 0 < fuel → b = !a.sources.isEmpty) := by
  have hmain : requiredDiags rt fuel node i st.requiredF =
      some (if b then [] else [⟨node, .missingArgument ns⟩]) := by
    rw [hreq]
    unfold requiredDiags
    rw [if_pos rfl, hb]
    cases b
    · show missingArgumentD rt fuel [node] i = _
      unfold missingArgumentD
      rw [hns]
      rfl
    · rfl
  refine ⟨hmain, ?_, ?_⟩
  · intro ds hds
    cases st with
    | arg a =>
      have hra : a.required = true := hreq
      unfold checkEntry at hds
      obtain ⟨r, hr, hds⟩ := Option.bind_eq_some.1 hds
      obtain ⟨q, hq, hds⟩ := Option.bind_eq_some.1 hds
      obtain ⟨c, hc, hds⟩ := Option.bind_eq_some.1 hds
      cases Option.some.inj hds
      have : r = if b then [] else [⟨node, .missingArgument ns⟩] :=
        Option.some.inj (hr.symm.trans hmain)
      subst this
      exact ⟨dupDiags a ++ q ++ c, by simp [List.append_assoc]⟩
    | grp g =>
      have hrg : g.required = true := hreq
      unfold checkEntry at hds
      obtain ⟨r, hr, hds⟩ := Option.bind_eq_some.1 hds
      obtain ⟨e, he, hds⟩ := Option.bind_eq_some.1 hds
      obtain ⟨q, hq, hds⟩ := Option.bind_eq_some.1 hds
      obtain ⟨c, hc, hds⟩ := Option.bind_eq_some.1 hds
      cases Option.some.inj hds
      have : r = if b then [] else [⟨node, .missingArgument ns⟩] :=
        Option.some.inj (hr.symm.trans hmain)
      subst this
      exact ⟨e ++ q ++ c, by simp [List.append_assoc]⟩
  · intro a hsta hf
    subst hsta
    cases fuel with
    | zero => cases hf
    | succ w =>
      unfold checkSupplied at hb
      rw [hst] at hb
      exact (Option.some.inj hb).symm

/-- C2 counterexample.  In `halfRt` the group `g = [a, b]` is required and
member `a` was provided once, so the claim's zero-provided-members reading
predicts no missing-required diagnostic; the checker still emits one,
because `b` is unsupplied and group suppliedness demands all members. -/
theorem claim_c2_counterexample :
    check halfRt 3 = some [⟨99, .missingArgument ["a", "b"]⟩]
    ∧ checkSupplied halfRt 3 0 = some true :=
  ⟨rfl, rfl⟩

/-- C2 witness: the amended theorem applied to `halfRt`'s required group. -/
theorem claim_c2_witness :
    requiredDiags halfRt 3 99 2
        (State.grp ⟨"g", [0, 1], true, false, [], []⟩).requiredF =
      some (if false then [] else [⟨99, .missingArgument ["a", "b"]⟩]) :=
  (@claim_c2 halfRt 3 99 2 _ _ _ rfl rfl rfl rfl).1

end Core

theorem mapOptM_mem_some {α β : Type} {f : α → Option β} {xs : List α} {l : List β}
    (hm : mapOptM f xs = some l) {x : α} (hx : x ∈ xs) : ∃ y, f x = some y := by
  induction xs generalizing l with
  | nil => cases hx
  | cons a as ih =>
    rw [mapOptM_cons] at hm
    obtain ⟨y, hy, hm⟩ := Option.bind_eq_some.1 hm
    obtain ⟨ys, hys, _⟩ := Option.bind_eq_some.1 hm
    rcases List.mem_cons.1 hx with rfl | hx'
    · exact ⟨y, hy⟩
    · exact ih hys hx'

theorem mem_of_getElem? {α : Type} {l : List α} {i : Nat} {a : α}
    (h : l[i]? = some a) : a ∈ l := by
  obtain ⟨hlt, he⟩ := List.getElem?_eq_some.1 h
  exact he ▸ List.getElem_mem hlt

namespace Core

/-- C3.  For every exclusive (non-`multiple`) group: any two distinct
members that are both supplied produce a `ConflictingArgument` at every
occurrence of each side naming the other side; with exactly two argument
members recorded once each, the pass produces exactly the two diagnostics.
The diagnostics flow into the full `check` output. -/
theorem claim_c3 {rt : Runtime} {fuel : Nat} {g : GroupState}
    (hmul : g.multiple = false) {eds : List Err}
    (hed : exclDiags rt fuel g = some eds) :
    (∀ (p q mp mq : Nat) (a : ArgState) (ns : List String), p ≠ q →
      g.members[p]? = some mp → g.members[q]? = some mq →
      rt.states[mp]? = some (State.arg a) →
      checkSupplied rt fuel mq = some true →
      collectNames rt fuel mq = some ns →
      ∀ sp ∈ a.sources, (⟨sp, .conflictingArgument ns⟩ : Err) ∈ eds)
    ∧ (∀ (mi mj : Nat) (a b : ArgState) (sa sb : Nat), g.members = [mi, mj] →
      rt.states[mi]? = some (State.arg a) → rt.states[mj]? = some (State.arg b) →
      a.sources = [sa] → b.sources = [sb] →
      eds = [⟨sa, .conflictingArgument [b.name]⟩, ⟨sb, .conflictingArgument [a.name]⟩])
    ∧ (∀ (i : Nat) (es : List Err), rt.states[i]? = some (State.grp g) →
      check rt fuel = some es → ∀ z ∈ eds, z ∈ es) := by
  have hed' := hed
  unfold exclDiags at hed'
  rw [if_neg (by simp [hmul])] at hed'
  obtain ⟨l, hl, rfl⟩ := Option.map_eq_some'.1 hed'
  refine ⟨?_, ?_, ?_⟩
  · intro p q mp mq a ns hpq hmp hmq ha hsup hns sp hsp
    have hpe : (p, mp) ∈ g.members.enum := List.mem_enum_iff_getElem?.2 hmp
    obtain ⟨ys, hys⟩ := mapOptM_mem_some hl hpe
    obtain ⟨l2, hl2, rfl⟩ := Option.map_eq_some'.1 hys
    have hmqo : mq ∈ g.members.take p ++ g.members.drop (p + 1) := by
      rcases Nat.lt_or_ge q p with hlt | hge
      · exact List.mem_append_left _ (mem_of_getElem?
          ((List.getElem?_take_of_lt hlt).trans hmq))
      · have hgt : p + 1 ≤ q := Nat.succ_le_of_lt (Nat.lt_of_le_of_ne hge hpq)
        refine List.mem_append_right _ (mem_of_getElem? (i := q - (p + 1)) ?_)
        rw [List.getElem?_drop]
        rw [Nat.add_sub_cancel' hgt]
        exact hmq
    obtain ⟨zs, hzs⟩ := mapOptM_mem_some hl2 hmqo
    have hzs' := hzs
    unfold exclPair at hzs'
    rw [hsup] at hzs'
    simp only [Option.some_bind, Bool.not_true, Bool.false_eq_true, if_false] at hzs'
    rw [hns] at hzs'
    obtain ⟨nsv, hnsv, hzs'⟩ := Option.bind_eq_some.1 hzs'
    cases Option.some.inj hnsv
    obtain ⟨args, hargs, hzs'⟩ := Option.bind_eq_some.1 hzs'
    cases fuel with
    | zero => cases hargs
    | succ w =>
      unfold visitArgsId at hargs
      rw [ha] at hargs
      cases Option.some.inj hargs
      refine mapOptM_flatten_mem hl hpe hys (mapOptM_flatten_mem hl2 hmqo hzs ?_)
      rw [← Option.some.inj hzs']
      simp only [List.flatMap_cons, List.flatMap_nil, List.append_nil]
      exact List.mem_map.2 ⟨sp, hsp, rfl⟩
  · intro mi mj a b sa sb hmem ha hb hsa hsb
    cases fuel with
    | zero =>
      rw [hmem] at hl
      simp only [List.enum] at hl
      simp [mapOptM, exclPair, checkSupplied] at hl
    | succ w =>
      have : exclDiags rt (w + 1) g =
          some [⟨sa, .conflictingArgument [b.name]⟩, ⟨sb, .conflictingArgument [a.name]⟩] := by
        unfold exclDiags
        rw [if_neg (by simp [hmul]), hmem]
        simp [List.enum, mapOptM, exclPair, checkSupplied, collectNames, visitArgsId,
          ha, hb, hsa, hsb]
      exact Option.some.inj (hed.symm.trans this)
  · intro i es hi hch z hz
    unfold check at hch
    obtain ⟨lc, hlc, rfl⟩ := Option.map_eq_some'.1 hch
    have hie : (i, State.grp g) ∈ rt.states.enum := List.mem_enum_iff_getElem?.2 hi
    obtain ⟨ds, hds⟩ := mapOptM_mem_some hlc hie
    have hds' := hds
    unfold checkEntry at hds'
    obtain ⟨r, hr, hds'⟩ := Option.bind_eq_some.1 hds'
    obtain ⟨e, he, hds'⟩ := Option.bind_eq_some.1 hds'
    obtain ⟨q, hq, hds'⟩ := Option.bind_eq_some.1 hds'
    obtain ⟨c, hc, hds'⟩ := Option.bind_eq_some.1 hds'
    cases Option.some.inj hds'
    have : e = l.flatten := Option.some.inj (he.symm.trans hed)
    subst this
    refine mapOptM_flatten_mem hlc hie hds ?_
    simp only [List.mem_append]
    exact Or.inl (Or.inl (Or.inr hz))

/-- C3 witness: scenario B (`target = [file, url]`, both recorded once)
through the theorem: the first conjunct places `url`'s conflict at `file`'s
occurrence inside the computed diagnostics, which are exactly the two
claimed ones. -/
theorem claim_c3_witness :
    exclDiags exclRt 1 ⟨"target", [0, 1], false, false, [], []⟩ =
      some [⟨1, .conflictingArgument ["url"]⟩, ⟨2, .conflictingArgument ["file"]⟩]
    ∧ (⟨1, .conflictingArgument ["url"]⟩ : Err) ∈
        [(⟨1, .conflictingArgument ["url"]⟩ : Err), ⟨2, .conflictingArgument ["file"]⟩] := by
  refine ⟨rfl, ?_⟩
  exact (@claim_c3 exclRt 1 ⟨"target", [0, 1], false, false, [], []⟩ rfl _ rfl).1
    0 1 0 1 ⟨"file", .append, false, [], [], [1]⟩ ["url"]
    (by decide) rfl rfl rfl rfl rfl 1 (by decide)

/-- C5.  For a `requires` edge from argument A to target `t`: when `t` is
not supplied, the checker emits exactly one `MissingArgument` naming `t`'s
flattened argument names at every occurrence span of A — one diagnostic per
occurrence of A — and each of these lands in the full `check` output. -/
theorem claim_c5 {rt : Runtime} {fuel : Nat} {a : ArgState} {t : Nat}
    {ns : List String}
    (hsup : checkSupplied rt fuel t = some false)
    (hns : collectNames rt fuel t = some ns) :
    requiresOne rt fuel (State.arg a) t =
      some (a.sources.map fun sp => ⟨sp, .missingArgument ns⟩)
    ∧ ∀ (i : Nat) (es : List Err), rt.states[i]? = some (State.arg a) →
        t ∈ a.requires → check rt fuel = some es →
        ∀ sp ∈ a.sources, (⟨sp, .missingArgument ns⟩ : Err) ∈ es := by
  have h1 : requiresOne rt fuel (State.arg a) t =
      some (a.sources.map fun sp => ⟨sp, .missingArgument ns⟩) := by
    unfold requiresOne
    rw [hsup]
    simp only [Option.some_bind, Bool.false_eq_true, if_false, hns, visitArgsSt]
    simp [List.flatMap_cons]
  refine ⟨h1, ?_⟩
  intro i es hi hreq hch sp hsp
  unfold check at hch
  obtain ⟨lc, hlc, rfl⟩ := Option.map_eq_some'.1 hch
  have hie : (i, State.arg a) ∈ rt.states.enum := List.mem_enum_iff_getElem?.2 hi
  obtain ⟨ds, hds⟩ := mapOptM_mem_some hlc hie
  have hds' := hds
  unfold checkEntry at hds'
  obtain ⟨r, hr, hds'⟩ := Option.bind_eq_some.1 hds'
  obtain ⟨q, hq, hds'⟩ := Option.bind_eq_some.1 hds'
  obtain ⟨c, hc, hds'⟩ := Option.bind_eq_some.1 hds'
  cases Option.some.inj hds'
  unfold requiresDiags at hq
  obtain ⟨lq, hlq, rfl⟩ := Option.map_eq_some'.1 hq
  have hz : (⟨sp, ErrorKind.missingArgument ns⟩ : Err) ∈ lq.flatten :=
    mapOptM_flatten_mem hlq hreq h1 (List.mem_map.2 ⟨sp, hsp, rfl⟩)
  refine mapOptM_flatten_mem hlc hie hds ?_
  simp only [List.mem_append]
  exact Or.inl (Or.inr hz)

/-- C5 witness: `a` recorded at spans 3 and 4 requires `b`, which is not
recorded; the pass emits one missing-`b` diagnostic per occurrence of `a`,
and they appear in the `check` output. -/
theorem claim_c5_witness :
    requiresOne reqRt 2 (State.arg ⟨"a", .append, false, [1], [], [3, 4]⟩) 1 =
      some [⟨3, .missingArgument ["b"]⟩, ⟨4, .missingArgument ["b"]⟩]
    ∧ (⟨3, .missingArgument ["b"]⟩ : Err) ∈
        [(⟨3, .missingArgument ["b"]⟩ : Err), ⟨4, .missingArgument ["b"]⟩] := by
  have h := @claim_c5 reqRt 2 ⟨"a", .append, false, [1], [], [3, 4]⟩ 1 ["b"] rfl rfl
  refine ⟨h.1, ?_⟩
  exact h.2 0 [⟨3, .missingArgument ["b"]⟩, ⟨4, .missingArgument ["b"]⟩]
    rfl (by decide) rfl 3 (by decide)

/-- C10.  A group with zero registered members is vacuously supplied
(`Iterator::all` on an empty member list): a required empty group never
produces a missing-required diagnostic, and a `requires` edge targeting an
empty group is always satisfied. -/
theorem claim_c10 {rt : Runtime} {fuel i : Nat} {g : GroupState}
    (hg : rt.states[i]? = some (State.grp g)) (hm : g.members = [])
    (hf : 0 < fuel) :
    checkSupplied rt fuel i = some true
    ∧ (∀ node : Nat, requiredDiags rt fuel node i g.required = some [])
    ∧ (∀ st : State, requiresOne rt fuel st i = some []) := by
  cases fuel with
  | zero => cases hf
  | succ w =>
    have hsup : checkSupplied rt (w + 1) i = some true := by
      unfold checkSupplied
      rw [hg]
      show allOptM (checkSupplied rt w) g.members = some true
      rw [hm]
      rfl
    refine ⟨hsup, ?_, ?_⟩
    · intro node
      unfold requiredDiags
      by_cases hq : g.required = true
      · rw [if_pos hq, hsup]
        rfl
      · rw [if_neg hq]
        rfl
    · intro st
      unfold requiresOne
      rw [hsup]
      rfl

/-- C10 witness: the required empty group of `emptyGrpRt` is supplied and
the whole pass produces no diagnostic at all. -/
theorem claim_c10_witness :
    checkSupplied emptyGrpRt 1 0 = some true ∧ check emptyGrpRt 1 = some [] := by
  have h := @claim_c10 emptyGrpRt 1 0 ⟨"g", [], true, false, [], []⟩ rfl rfl (by decide)
  exact ⟨h.1, rfl⟩

end Core

/-- C6 counterexample.  The circular schema (group `x` lists `y`, group `y`
lists `x`) passes `RuntimeBuilder::finish` — construction raises no fatal
authoring error — and `check_supplied` reaches no verdict on it within any
of 50 recursion steps. -/
theorem claim_c6_counterexample :
    Core.builderFinish 0 Core.cycBuild = .ok Core.cycRt
    ∧ Core.checkSupplied Core.cycRt 50 0 = none :=
  ⟨rfl, by decide⟩

/-- C6 (amended).  Circular group membership is *not* a construction-time
error: `RuntimeBuilder::finish` accepts the schema.  In the `core` snapshot,
resolution (`check_supplied`) then never terminates on either group — for
every recursion bound it is still unfinished — so `validate` diverges
rather than looping silently to a wrong answer; in the `src/src` snapshot,
the tri-state resolver detects the cycle during the first validation pass
and aborts with a fatal error naming both implicated groups. -/
theorem claim_c6 :
    Core.builderFinish 0 Core.cycBuild = .ok Core.cycRt
    ∧ (∀ fuel : Nat, Core.checkSupplied Core.cycRt fuel 0 = none
        ∧ Core.checkSupplied Core.cycRt fuel 1 = none)
    ∧ Src.updateState 5 Src.cycVals 0 0 =
        .error "found circular groups: `x` and `y`" := by
  refine ⟨rfl, ?_, rfl⟩
  intro fuel
  induction fuel with
  | zero => exact ⟨rfl, rfl⟩
  | succ w ih =>
    constructor
    · show allOptM (Core.checkSupplied Core.cycRt w) [1] = none
      rw [allOptM_cons, ih.2]
      rfl
    · show allOptM (Core.checkSupplied Core.cycRt w) [0] = none
      rw [allOptM_cons, ih.1]
      rfl

namespace Shared

theorem toList_combine (e1 e2 : SynError) :
    (e1.combine e2).toList = e1.toList ++ e2.toList := by
  simp [SynError.combine, SynError.toList]

theorem foldl_combine_some (es : List SynError) (a : SynError) :
    es.foldl ErrorCollector.combine ⟨some a⟩ = ⟨some (es.foldl SynError.combine a)⟩ := by
  induction es generalizing a with
  | nil => rfl
  | cons e rest ih => simpa [List.foldl_cons, ErrorCollector.combine] using ih (a.combine e)

theorem toList_foldl (es : List SynError) (a : SynError) :
    (es.foldl SynError.combine a).toList = a.toList ++ es.flatMap SynError.toList := by
  induction es generalizing a with
  | nil => simp
  | cons e rest ih =>
    simp [List.foldl_cons, ih (a.combine e), toList_combine, List.append_assoc]

/-- C7.  The diagnostic aggregator: folding any sequence of combined errors
into a fresh `ErrorCollector` and finishing yields `Ok` iff the sequence was
empty; otherwise the single returned aggregate carries every diagnostic of
every combined error, in order — never only the first. -/
theorem claim_c7 (es : List SynError) :
    ((es.foldl ErrorCollector.combine ⟨none⟩).finish = .ok () ↔ es = [])
    ∧ (∀ e, (es.foldl ErrorCollector.combine ⟨none⟩).finish = .error e →
        e.toList = es.flatMap SynError.toList) := by
  cases es with
  | nil =>
    refine ⟨by simp [ErrorCollector.finish], ?_⟩
    intro e h
    simp [ErrorCollector.finish] at h
  | cons e0 rest =>
    have hfold : (e0 :: rest).foldl ErrorCollector.combine ⟨none⟩ =
        ⟨some (rest.foldl SynError.combine e0)⟩ := by
      simpa [List.foldl_cons, ErrorCollector.combine] using foldl_combine_some rest e0
    constructor
    · rw [hfold]
      simp [ErrorCollector.finish]
    · intro e h
      rw [hfold] at h
      simp only [ErrorCollector.finish, Except.error.injEq] at h
      rw [← h, toList_foldl]
      simp [SynError.toList]

/-- C7 witness: combining a one-diagnostic error and a two-diagnostic error
returns a single aggregate holding all three diagnostics. -/
theorem claim_c7_witness :
    ([cErr1, cErr2].foldl ErrorCollector.combine ⟨none⟩).finish =
      .error ⟨(1, "first"), [(2, "second"), (3, "third")]⟩
    ∧ (SynError.toList ⟨(1, "first"), [(2, "second"), (3, "third")]⟩ =
        [cErr1, cErr2].flatMap SynError.toList) :=
  ⟨rfl, (claim_c7 [cErr1, cErr2]).2 ⟨(1, "first"), [(2, "second"), (3, "third")]⟩ rfl⟩

theorem lookup_append_some {l1 l2 : List (String × Nat)} {k : String} {v : Nat}
    (h : l1.lookup k = some v) : (l1 ++ l2).lookup k = some v := by
  induction l1 with
  | nil => cases h
  | cons p rest ih =>
    obtain ⟨k', v'⟩ := p
    simp only [List.lookup, List.cons_append] at h ⊢
    cases hk : (k == k') with
    | true => rw [hk] at h; exact h
    | false => rw [hk] at h; exact ih h

theorem lookup_append_none {l1 l2 : List (String × Nat)} {k : String}
    (h : l1.lookup k = none) : (l1 ++ l2).lookup k = l2.lookup k := by
  induction l1 with
  | nil => rfl
  | cons p rest ih =>
    obtain ⟨k', v'⟩ := p
    simp only [List.lookup, List.cons_append] at h ⊢
    cases hk : (k == k') with
    | true => rw [hk] at h; simp at h
    | false => rw [hk] at h; exact ih h

theorem lookup_mem {l : List (String × Nat)} {k : String} {v : Nat}
    (h : l.lookup k = some v) : (k, v) ∈ l := by
  induction l with
  | nil => cases h
  | cons p rest ih =>
    obtain ⟨k', v'⟩ := p
    simp only [List.lookup] at h
    cases hk : (k == k') with
    | true =>
      rw [hk] at h
      have hv : v' = v := Option.some.inj h
      cases hv
      cases eq_of_beq hk
      exact List.mem_cons_self _ _
    | false =>
      rw [hk] at h
      exact List.mem_cons_of_mem _ (ih h)

/-- C9.  `register` is idempotent (the second call returns the same `Id` and
leaves the runtime unchanged), a fresh name is allocated `Id(ids.len())` —
which, whenever all previously assigned ids lie below `ids.len()`, is unused
— and no later sequence of registrations ever changes the `Id` a name
already has. -/
theorem claim_c9 :
    (∀ (rt : Runtime) (n : String),
      register (register rt n).2 n = ((register rt n).1, (register rt n).2))
    ∧ (∀ (rt : Runtime) (n : String), rt.ids.lookup n = none →
        (register rt n).1 = rt.ids.length)
    ∧ (∀ (rt : Runtime) (n : String),
        (∀ p ∈ rt.ids, p.2 < rt.ids.length) → rt.ids.lookup n = none →
        ∀ (m : String) (j : Nat), rt.ids.lookup m = some j → (register rt n).1 ≠ j)
    ∧ (∀ (rt : Runtime) (n : String) (i : Nat) (ws : List String),
        rt.ids.lookup n = some i → (applyRegs rt ws).ids.lookup n = some i) := by
  have hreg_found : ∀ (rt : Runtime) (n : String) (i : Nat),
      rt.ids.lookup n = some i → register rt n = (i, rt) := by
    intro rt n i h
    unfold register
    rw [h]
  have hreg_keep : ∀ (rt : Runtime) (n m : String) (i : Nat),
      rt.ids.lookup m = some i → ((register rt n).2).ids.lookup m = some i := by
    intro rt n m i h
    unfold register
    cases hl : rt.ids.lookup n with
    | some id => exact h
    | none => exact lookup_append_some h
  refine ⟨?_, ?_, ?_, ?_⟩
  · intro rt n
    cases hl : rt.ids.lookup n with
    | some id =>
      rw [hreg_found rt n id hl, hreg_found rt n id hl]
    | none =>
      have h2 : ((register rt n).2).ids.lookup n = some rt.ids.length := by
        show ((match rt.ids.lookup n with
          | some id => ((id, rt) : Nat × Runtime)
          | none => (rt.ids.length,
              { rt with
                ids := rt.ids ++ [(n, rt.ids.length)]
                names := insertSorted rt.ids.length n rt.names })).2).ids.lookup n =
          some rt.ids.length
        rw [hl]
        show (rt.ids ++ [(n, rt.ids.length)]).lookup n = some rt.ids.length
        rw [lookup_append_none hl]
        simp [List.lookup]
      have h1 : (register rt n).1 = rt.ids.length := by
        unfold register
        rw [hl]
      rw [hreg_found _ n rt.ids.length h2, h1]
  · intro rt n h
    unfold register
    rw [h]
  · intro rt n hinv hn m j hm hne
    have hj : j < rt.ids.length := hinv (m, j) (lookup_mem hm)
    have : (register rt n).1 = rt.ids.length := by unfold register; rw [hn]
    rw [this] at hne
    exact Nat.lt_irrefl _ (hne ▸ hj)
  · intro rt n i ws h
    induction ws generalizing rt with
    | nil => exact h
    | cons w rest ih => exact ih _ (hreg_keep rt w n i h)

/-- C9 witness: a fresh registration allocates index 0 on the empty runtime,
and `name`'s `Id` 0 survives later registrations (one of them fresh). -/
theorem claim_c9_witness :
    (register Runtime.empty "a").1 = Runtime.empty.ids.length
    ∧ (applyRegs confBase ["alias", "fresh", "name"]).ids.lookup "name" = some 0 :=
  ⟨claim_c9.2.1 Runtime.empty "a" rfl,
   claim_c9.2.2.2 confBase "name" 0 ["alias", "fresh", "name"] rfl⟩

theorem entryPush_cons_eq {k k' v : Nat} {vs : List Nat} {tl : List (Nat × List Nat)}
    (h : k = k') : entryPush ((k', vs) :: tl) k v = (k', vs ++ [v]) :: tl := by
  simp [entryPush, h]

theorem entryPush_cons_lt {k k' v : Nat} {vs : List Nat} {tl : List (Nat × List Nat)}
    (h : k < k') : entryPush ((k', vs) :: tl) k v = (k, [v]) :: (k', vs) :: tl := by
  have h1 : ¬ k = k' := by omega
  simp [entryPush, h1, h]

theorem entryPush_cons_gt {k k' v : Nat} {vs : List Nat} {tl : List (Nat × List Nat)}
    (h : k' < k) : entryPush ((k', vs) :: tl) k v = (k', vs) :: entryPush tl k v := by
  have h1 : ¬ k = k' := by omega
  have h2 : ¬ k < k' := by omega
  simp [entryPush, h1, h2]

theorem entryPush_comm {k1 k2 v1 v2 : Nat} (h : k1 ≠ k2) :
    ∀ m : List (Nat × List Nat),
      entryPush (entryPush m k1 v1) k2 v2 = entryPush (entryPush m k2 v2) k1 v1 := by
  intro m
  induction m with
  | nil =>
    rcases Nat.lt_or_ge k1 k2 with hlt | hge
    · rw [show entryPush [] k1 v1 = [(k1, [v1])] from rfl,
        show entryPush [] k2 v2 = [(k2, [v2])] from rfl,
        entryPush_cons_gt hlt, entryPush_cons_lt hlt]
      rfl
    · have hlt : k2 < k1 := by omega
      rw [show entryPush [] k1 v1 = [(k1, [v1])] from rfl,
        show entryPush [] k2 v2 = [(k2, [v2])] from rfl,
        entryPush_cons_lt hlt, entryPush_cons_gt hlt]
      rfl
  | cons hd tl ih =>
    obtain ⟨k, vs⟩ := hd
    rcases Nat.lt_trichotomy k1 k with h1 | h1 | h1 <;>
      rcases Nat.lt_trichotomy k2 k with h2 | h2 | h2
    · rcases Nat.lt_or_ge k1 k2 with hlt | hge
      · simp only [entryPush_cons_lt h1, entryPush_cons_lt h2,
          entryPush_cons_gt hlt, entryPush_cons_lt hlt]
      · have hlt : k2 < k1 := by omega
        simp only [entryPush_cons_lt h1, entryPush_cons_lt h2,
          entryPush_cons_lt hlt, entryPush_cons_gt hlt]
    · subst h2
      simp only [entryPush_cons_lt h1, entryPush_cons_eq rfl, entryPush_cons_gt h1]
    · simp only [entryPush_cons_lt h1, entryPush_cons_gt h2,
        entryPush_cons_gt (show k1 < k2 by omega)]
    · subst h1
      simp only [entryPush_cons_eq rfl, entryPush_cons_lt h2, entryPush_cons_gt h2]
    · exact absurd (h1.trans h2.symm) h
    · subst h1
      simp only [entryPush_cons_eq rfl, entryPush_cons_gt h2]
    · simp only [entryPush_cons_gt h1, entryPush_cons_lt h2,
        entryPush_cons_gt (show k2 < k1 by omega)]
    · subst h2
      simp only [entryPush_cons_gt h1, entryPush_cons_eq rfl]
    · simp only [entryPush_cons_gt h1, entryPush_cons_gt h2, ih]

/-- C4.  Conflict edges are symmetric by construction:
`add_conflicts_with` registers the edge in both endpoints' lists, so for two
already-registered entries the runtime after declaring the edge from either
endpoint is literally the same; and with both (argument) endpoints supplied,
the conflicts section of `finish` emits one `ArgConflict` naming the
opposite side at every occurrence span of each side. -/
theorem claim_c4 :
    (∀ (rt : Runtime) (a b : String) (ia ib : Nat), ia ≠ ib →
      rt.ids.lookup a = some ia → rt.ids.lookup b = some ib →
      addConflictsWith rt ia b = addConflictsWith rt ib a)
    ∧ (∀ (rt : Runtime) (a b : String) (ia ib : Nat) (sa sb : List Nat),
      ia < ib →
      rt.ids.lookup b = some ib →
      rt.names.lookup ia = some a → rt.names.lookup ib = some b →
      rt.groups.lookup ia = none → rt.groups.lookup ib = none →
      rt.sources.lookup ia = some sa → rt.sources.lookup ib = some sb →
      rt.conflicts = [] →
      conflictsSection (addConflictsWith rt ia b) =
        (sa.map fun sp => ⟨sp, .argConflict a b⟩)
          ++ (sb.map fun sp => ⟨sp, .argConflict b a⟩)) := by
  constructor
  · intro rt a b ia ib hne hla hlb
    unfold addConflictsWith register
    rw [hla, hlb]
    show ({ rt with conflicts := entryPush (entryPush rt.conflicts ia ib) ib ia } : Runtime) =
      { rt with conflicts := entryPush (entryPush rt.conflicts ib ia) ia ib }
    rw [entryPush_comm hne]
  · intro rt a b ia ib sa sb hlt hlb hna hnb hga hgb hsa hsb hc0
    unfold addConflictsWith register
    rw [hlb]
    show conflictsSection
        ({ rt with conflicts := entryPush (entryPush rt.conflicts ia ib) ib ia } : Runtime) = _
    rw [hc0]
    have hmap : entryPush (entryPush ([] : List (Nat × List Nat)) ia ib) ib ia =
        [(ia, [ib]), (ib, [ia])] := by
      rw [show entryPush ([] : List (Nat × List Nat)) ia ib = [(ia, [ib])] from rfl,
        entryPush_cons_gt hlt]
      rfl
    rw [hmap]
    unfold conflictsSection flatGroup withSpans suppliedS toName
    simp [hga, hgb, hsa, hsb, hna, hnb]

/-- C4 witness: scenario A (`name` at span 10, `alias` at span 20).
Declaring the edge from `name` or from `alias` yields the same runtime, and
the pass emits one conflict at each side's occurrence naming the other. -/
theorem claim_c4_witness :
    addConflictsWith confBase 0 "alias" = addConflictsWith confBase 1 "name"
    ∧ conflictsSection (addConflictsWith confBase 0 "alias") =
        [⟨10, .argConflict "name" "alias"⟩, ⟨20, .argConflict "alias" "name"⟩] := by
  refine ⟨claim_c4.1 confBase "name" "alias" 0 1 (by decide) rfl rfl, ?_⟩
  have h := claim_c4.2 confBase "name" "alias" 0 1 [10] [20]
    (by decide) rfl rfl rfl rfl rfl rfl rfl rfl
  simpa using h

end Shared

/-- C8 counterexample.  Three names are rendered `one of` with plain comma
separators: there is no `or` before the last name, contrary to the claim. -/
theorem claim_c8_counterexample :
    Core.fmtGrp none ["a", "b", "c"] = "one of `a`, `b`, `c`"
    ∧ "one of `a`, `b`, `c`" ≠ "one of `a`, `b`, or `c`" :=
  ⟨rfl, by decide⟩

/-- C8 (amended).  The `core` default formatter joins a name list as:
0 names → empty string, 1 → the name in backticks, 2 → the two names joined
with `or`, 3 or more → `one of` followed by all names joined with plain
commas (no `or` before the last); a configured namespace prefixes every
name as `namespace.name`.  The `shared` snapshot formatter instead renders
every list of two or more names using only its first two names joined with
`or`. -/
theorem claim_c8 :
    (∀ ns, Core.fmtGrp ns [] = "")
    ∧ (∀ ns a, Core.fmtGrp ns [a] = Core.fmtArg ns a)
    ∧ (∀ ns a b, Core.fmtGrp ns [a, b] =
        Core.fmtArg ns a ++ " or " ++ Core.fmtArg ns b)
    ∧ (∀ ns a b c rest, Core.fmtGrp ns (a :: b :: c :: rest) =
        "one of " ++ Core.fmtArg ns a ++
          String.join ((b :: c :: rest).map fun r => ", " ++ Core.fmtArg ns r))
    ∧ (∀ n a, Core.fmtArg (some n) a = "`" ++ n ++ "." ++ a ++ "`")
    ∧ (∀ a, Core.fmtArg none a = "`" ++ a ++ "`")
    ∧ (∀ ns a b rest, Shared.fmtArgsS ns (a :: b :: rest) =
        Shared.fmtArgS ns a ++ " or " ++ Shared.fmtArgS ns b) :=
  ⟨fun _ => rfl, fun _ _ => rfl, fun _ _ _ => rfl, fun _ _ _ _ _ => rfl,
   fun _ _ => rfl, fun _ => rfl, fun _ _ _ _ => rfl⟩

end Plap
